import Mathlib

/-
Verification of the classification-and-filtering pipeline of
twitter_bot_filter (src/twitter_bot_filter.py and
src/twitter_bot_filter_simple.py), shallowly embedded in Lean.

Modelling choices:
* A csv row (a Python dict from column name to cell value, insertion
  ordered) is an association list of strings; dict access is List.lookup,
  and a KeyError is an Except.error.
* Reputation scores and the decision threshold (Python floats in [0,1])
  are rationals; the comparison score <= weighting carries over exactly.
* The external Botometer service (check_account) is an opaque total
  function svc from the submitted lookup key to the cap.english score.
  The key type is Option String because filter_by_bottines passes the
  result of get_username, which may be None, straight to the client.
* The regex "twitter.com/(\w{1,15})/" is embedded with Python re.search
  semantics: leftmost match, the dot matching any character except a
  newline, a greedy bounded group. The matcher is parametric in the word
  class standing for Python's Unicode \w: the leftmost-match theorems
  are proved for an arbitrary word class, and the program's extractor is
  the instance at pyWordChar, a table of \w that is exact on every
  codepoint up to U+00FF (attested against CPython 3).
* File reading and writing are abstracted at the value boundary: the
  reader's outcome is an Option CsvData (None when no header could be
  read) and the writer's outcome is the list of emitted lines.
-/

/-- One csv row: the in-memory form of a record produced by
csv.DictReader, a mapping from column name to cell value. -/
abbrev Row : Type := List (String × String)

/-- The dataclass CsvData of twitter_bot_filter.py: header field names
plus the list of rows. -/
structure CsvData where
  fieldnames : List String
  data : List Row
  deriving DecidableEq

/-- filter_csv_data from twitter_bot_filter.py: a new CsvData with the
same fieldnames and the comprehension [row for row in data if filter_func(row)]. -/
def filter_csv_data (csv_data : CsvData) (filter_func : Row → Bool) : CsvData :=
  CsvData.mk csv_data.fieldnames (csv_data.data.filter filter_func)

/-- The state of BotometerConnection that the core logic sees: the stored
decision threshold (private field __weighting). The wrapped Botometer
handle is the external service, passed separately as a function. -/
structure BotometerConnection where
  weighting : ℚ
  deriving DecidableEq

/-- BotometerConnection.__init__: the threshold starts at 0.8. -/
def BotometerConnection.init : BotometerConnection :=
  BotometerConnection.mk 0.8

/-- set_bot_cap from twitter_bot_filter.py, with the source's condition
kept exactly as written there: if weighting >= 0 or weighting <= 1,
store the new value, else keep the old one. -/
def set_bot_cap (b : BotometerConnection) (weighting : ℚ) : BotometerConnection :=
  if 0 ≤ weighting ∨ weighting ≤ 1 then BotometerConnection.mk weighting else b

/-- account_is_human (the body, before functools.cache is applied):
submit the key to the service (check_account, abstracted as svc) and
compare the returned cap.english score with the stored weighting. -/
def account_is_human (svc : Option String → ℚ) (b : BotometerConnection)
    (account_name : Option String) : Bool :=
  decide (svc account_name ≤ b.weighting)

/-- The ascii fragment [A-Za-z0-9_] of a word class: letters, digits and
the underscore — the handle alphabet named by the spec and the claim. -/
def asciiWordChar (c : Char) : Bool :=
  c.isAlphanum || c == '_'

/-- Modelled from the spec's external collaborator CPython re: the word
class \w of a str pattern (underscore plus Unicode alphanumerics). The
table is exact for every codepoint up to U+00FF, attested against
CPython 3 by enumeration; codepoints beyond the table are left
unclassified (false). The extractor is only ever evaluated below on
inputs within the exact range, and every universally quantified matcher
theorem is proved for an arbitrary word class, so no statement depends
on the unclassified codepoints. -/
def pyWordChar (c : Char) : Bool :=
  c.isAlphanum || c == '_' ||
  (c.toNat == 0xAA) || (0xB2 ≤ c.toNat && c.toNat ≤ 0xB3) ||
  (c.toNat == 0xB5) || (0xB9 ≤ c.toNat && c.toNat ≤ 0xBA) ||
  (0xBC ≤ c.toNat && c.toNat ≤ 0xBE) || (0xC0 ≤ c.toNat && c.toNat ≤ 0xD6) ||
  (0xD8 ≤ c.toNat && c.toNat ≤ 0xF6) || (0xF8 ≤ c.toNat && c.toNat ≤ 0xFF)

/-- Consume an expected literal piece of the regex from the front of the
input; some rest on success, none when the literal is not there. -/
def dropLit : List Char → List Char → Option (List Char)
  | [], s => some s
  | _ :: _, [] => none
  | l :: ls, c :: cs => if c = l then dropLit ls cs else none

/-- The tail "(\w{1,15})/" of the pattern at the head of t: the greedy
group takes the maximal run of word characters, and the match succeeds
exactly when that run is nonempty, at most 15 long, and followed by a
slash (a shorter capture is impossible, since giving back a character
leaves a word character where the slash is required). -/
def captureHandle (w : Char → Bool) (t : List Char) : Option (List Char) :=
  if (t.takeWhile w).length = 0 then none
  else if 15 < (t.takeWhile w).length then none
  else if (t.dropWhile w).head? = some '/' then some (t.takeWhile w)
  else none

/-- Match the whole pattern "twitter.com/(\w{1,15})/" at the head of t.
The dot matches any character except a newline, as in Python re. -/
def matchPat (w : Char → Bool) (t : List Char) : Option (List Char) :=
  (dropLit ("twitter".data) t).bind (fun t1 =>
    match t1 with
    | [] => none
    | c :: t2 =>
      if c = '\n' then none
      else (dropLit ("com/".data) t2).bind (captureHandle w))

/-- re.search: try the pattern at every start position, leftmost first. -/
def searchPat (w : Char → Bool) : List Char → Option (List Char)
  | [] => none
  | c :: rest =>
    match matchPat w (c :: rest) with
    | some h => some h
    | none => searchPat w rest

/-- The extractor built on an arbitrary word class w: regex search,
None when there is no match, otherwise group(1). -/
def get_username_with (w : Char → Bool) (uri : String) : Option String :=
  (searchPat w uri.data).map (fun h => String.mk h)

/-- get_username from filter_csv in twitter_bot_filter.py (the same logic
as get_username_from_url in the simple variant): the extractor at the
program's word class, Python's \w. -/
def get_username (uri : String) : Option String :=
  get_username_with pyWordChar uri

/-- One occurrence of the handle shape, over the word class w, at the
head of t: the source pattern's domain marker ("twitter", one character
that is not a newline, "com"), then a slash, then a handle of 1 to 15
w-word characters, then a slash. -/
def ShapeHead (w : Char → Bool) (t : List Char) (h : List Char) : Prop :=
  ∃ c rest, c ≠ '\n' ∧ h ≠ [] ∧ h.length ≤ 15 ∧ (∀ x ∈ h, w x = true) ∧
    t = "twitter".data ++ (c :: ("com/".data ++ (h ++ ('/' :: rest))))

/-- The handle shape, over the word class w, occurring at position i of s. -/
def ShapeAt (w : Char → Bool) (s : List Char) (i : Nat) (h : List Char) : Prop :=
  ShapeHead w (s.drop i) h

/-- The memo table that functools.cache keeps for account_is_human,
together with a log of the keys actually submitted to the underlying
check_account service call. -/
structure OracleState where
  cache : List (Option String × Bool)
  calls : List (Option String)
  deriving DecidableEq

/-- One account_is_human lookup under the cache decorator: a hit returns
the stored verdict without touching the service; a miss invokes the
service, compares against the weighting, stores and logs. -/
def cachedLookup (svc : Option String → ℚ) (b : BotometerConnection)
    (st : OracleState) (name : Option String) : Bool × OracleState :=
  match st.cache.lookup name with
  | some r => (r, st)
  | none =>
    (account_is_human svc b name,
     OracleState.mk ((name, account_is_human svc b name) :: st.cache)
       (st.calls ++ [name]))

/-- A sequence of account_is_human lookups within one run: the per-lookup
verdicts and the final cache state. -/
def runLookups (svc : Option String → ℚ) (b : BotometerConnection) :
    OracleState → List (Option String) → List Bool × OracleState
  | st, [] => ([], st)
  | st, n :: ns =>
    let p := cachedLookup svc b st n
    let q := runLookups svc b p.2 ns
    (p.1 :: q.1, q.2)

/-- The cache-state invariant maintained across a run: the call log has
no repeated key, every logged key is cached, and every cached verdict is
the one account_is_human computes for that key. -/
def OracleInv (svc : Option String → ℚ) (b : BotometerConnection)
    (st : OracleState) : Prop :=
  st.calls.Nodup ∧
  (∀ n, n ∈ st.calls → (st.cache.lookup n).isSome = true) ∧
  (∀ n r, st.cache.lookup n = some r → r = account_is_human svc b n)

/-- filter_by_bottines from filter_csv, instrumented with the list of
keys submitted to account_is_human (hence to the oracle). It reads the
configured column (a missing column is a KeyError, Except.error), runs
get_username on the value — logging a warning, not modelled, when the
result is None — and then always queries the client with that result,
retaining the row exactly when the verdict is human. -/
def filter_by_bottines (svc : Option String → ℚ) (b : BotometerConnection)
    (csv_url_header : String) (data : Row) :
    Except Unit (Bool × List (Option String)) :=
  match data.lookup csv_url_header with
  | none => Except.error ()
  | some v => Except.ok (account_is_human svc b (get_username v), [get_username v])

/-- The per-row verdict of filter_by_bottines, without the call log. -/
def classifyRow (svc : Option String → ℚ) (b : BotometerConnection)
    (csv_url_header : String) (data : Row) : Except Unit Bool :=
  (filter_by_bottines svc b csv_url_header data).map Prod.fst

/-- The comprehension of filter_csv_data as run inside filter_csv, where
the predicate filter_by_bottines can raise: rows are classified in input
order, a retained row is kept in place, and the first KeyError aborts. -/
def filterRowsE (svc : Option String → ℚ) (b : BotometerConnection)
    (csv_url_header : String) : List Row → Except Unit (List Row)
  | [] => Except.ok []
  | r :: rs =>
    match classifyRow svc b csv_url_header r with
    | Except.error e => Except.error e
    | Except.ok keep =>
      match filterRowsE svc b csv_url_header rs with
      | Except.error e => Except.error e
      | Except.ok rest => Except.ok (if keep then r :: rest else rest)

/-- filter_csv from twitter_bot_filter.py at the value boundary: the
reader's outcome stands in for read_csv_data (none when no header could
be read), write_out for the truthiness of csv_filename_out. The result
is the KeyError outcome, or the returned success flag together with the
dataset handed to write_csv_data (none when nothing is written). The
connection is freshly constructed, so the threshold is the init one. -/
def filter_csv_run (svc : Option String → ℚ) (csv_url_header : String)
    (csv_data_in : Option CsvData) (write_out : Bool) :
    Except Unit (Bool × Option CsvData) :=
  match csv_data_in with
  | none => Except.ok (false, none)
  | some d =>
    match filterRowsE svc BotometerConnection.init csv_url_header d.data with
    | Except.error e => Except.error e
    | Except.ok rows =>
      Except.ok (true, if write_out then some (CsvData.mk d.fieldnames rows) else none)

/-- write_csv_data from twitter_bot_filter.py: DictWriter(fieldnames)
followed by writerows(data) and nothing else. Each emitted line is the
row's cells in fieldnames order (restval, the empty string, for a missing
key); no header line is emitted, since writeheader() is never called. -/
def write_csv_data (csv_data : CsvData) : List (List String) :=
  csv_data.data.map (fun row =>
    csv_data.fieldnames.map (fun f => (row.lookup f).getD ""))

/-- Modelled from the spec's words, for comparison with write_csv_data:
"Output file: same format as input, header + filtered rows", that is the
header line followed by the serialized rows. -/
def write_csv_data_per_spec (csv_data : CsvData) : List (List String) :=
  csv_data.fieldnames ::
    csv_data.data.map (fun row =>
      csv_data.fieldnames.map (fun f => (row.lookup f).getD ""))

/-- Claim C1: for every dataset and classification predicate,
filter_csv_data returns a dataset with the input's header, whose rows
are exactly the input rows the predicate accepts, in the input's
relative order; the input value is untouched (the embedding is a pure
function of the input, so the input dataset is unchanged by
construction). -/
theorem filter_csv_data_spec (d : CsvData) (f : Row → Bool) :
    (filter_csv_data d f).fieldnames = d.fieldnames ∧
    List.Sublist (filter_csv_data d f).data d.data ∧
    (∀ r ∈ (filter_csv_data d f).data, f r = true) ∧
    (∀ r ∈ d.data, f r = true → r ∈ (filter_csv_data d f).data) ∧
    (filter_csv_data d f).data = d.data.filter f := by
  refine ⟨rfl, List.filter_sublist _, ?_, ?_, rfl⟩
  · intro r hr
    exact List.of_mem_filter hr
  · intro r hr hf
    exact List.mem_filter.mpr ⟨hr, hf⟩

/-- Witness for C1 at a concrete dataset and predicate. -/
theorem filter_csv_data_spec_witness :
    ([("a", "1")] : Row) ∈
      (filter_csv_data (CsvData.mk ["a"] [[("a", "1")]]) (fun _ => true)).data :=
  (filter_csv_data_spec (CsvData.mk ["a"] [[("a", "1")]]) (fun _ => true)).2.2.2.1
    [("a", "1")] (by simp) rfl

/-- Claim C9: filtering with an all-accepting predicate returns the input
dataset unchanged; filtering with an all-rejecting predicate returns the
original header with zero rows; and refiltering a filtered dataset with
the same predicate yields it again (idempotence, which in particular
covers the already-filtered all-human dataset). -/
theorem filter_csv_data_algebra (d : CsvData) (f : Row → Bool) :
    ((∀ r ∈ d.data, f r = true) → filter_csv_data d f = d) ∧
    ((∀ r ∈ d.data, f r = false) → filter_csv_data d f = CsvData.mk d.fieldnames []) ∧
    filter_csv_data (filter_csv_data d f) f = filter_csv_data d f := by
  refine ⟨?_, ?_, ?_⟩
  · intro h
    cases d with
    | mk fns rows =>
      simp only [filter_csv_data, CsvData.mk.injEq, true_and]
      exact List.filter_eq_self.mpr h
  · intro h
    cases d with
    | mk fns rows =>
      simp only [filter_csv_data, CsvData.mk.injEq, true_and]
      simp only [List.filter_eq_nil_iff]
      intro a ha
      simp [h a ha]
  · simp only [filter_csv_data, CsvData.mk.injEq, true_and]
    exact List.filter_eq_self.mpr (fun a ha => (List.mem_filter.mp ha).2)

/-- Witness for C9 at a concrete dataset, with an all-accepting and an
all-rejecting predicate. -/
theorem filter_csv_data_algebra_witness :
    filter_csv_data (CsvData.mk ["a"] [[("a", "1")]]) (fun _ => true) =
      CsvData.mk ["a"] [[("a", "1")]] ∧
    filter_csv_data (CsvData.mk ["a"] [[("a", "1")]]) (fun _ => false) =
      CsvData.mk ["a"] [] :=
  ⟨(filter_csv_data_algebra (CsvData.mk ["a"] [[("a", "1")]]) (fun _ => true)).1
      (fun _ _ => rfl),
   (filter_csv_data_algebra (CsvData.mk ["a"] [[("a", "1")]]) (fun _ => false)).2.1
      (fun _ _ => rfl)⟩

/-- Claim C6: for scores and thresholds in [0,1], account_is_human
answers human exactly when the score is at most the threshold, and in
particular the boundary score equal to the threshold is human. -/
theorem account_is_human_spec (svc : Option String → ℚ) (t : ℚ)
    (name : Option String) (hs0 : 0 ≤ svc name) (hs1 : svc name ≤ 1)
    (ht0 : 0 ≤ t) (ht1 : t ≤ 1) :
    (account_is_human svc (BotometerConnection.mk t) name = true ↔ svc name ≤ t) ∧
    (svc name = t → account_is_human svc (BotometerConnection.mk t) name = true) := by
  constructor
  · simp [account_is_human]
  · intro h
    simp [account_is_human, h]

/-- Witness for C6: score one half against threshold one half — the
boundary case — is classified human. -/
theorem account_is_human_spec_witness :
    account_is_human (fun _ => (1 : ℚ) / 2) (BotometerConnection.mk ((1 : ℚ) / 2))
      (some "carol") = true :=
  (account_is_human_spec (fun _ => (1 : ℚ) / 2) ((1 : ℚ) / 2) (some "carol")
    (by norm_num) (by norm_num) (by norm_num) (by norm_num)).2 rfl

/-- Claim C3 fails on the code: the guard in set_bot_cap reads
weighting >= 0 or weighting <= 1, a tautology, so the out-of-range
value 2 overwrites the stored threshold 0.8 instead of being rejected. -/
theorem set_bot_cap_out_of_range_updates :
    (1 : ℚ) < 2 ∧ BotometerConnection.init.weighting = 0.8 ∧
    (set_bot_cap BotometerConnection.init 2).weighting = 2 ∧
    (set_bot_cap BotometerConnection.init 2).weighting ≠
      BotometerConnection.init.weighting := by
  refine ⟨by norm_num, rfl, ?_, ?_⟩
  · norm_num [set_bot_cap]
  · norm_num [set_bot_cap, BotometerConnection.init]

theorem dropLit_eq_some {l : List Char} :
    ∀ {s r : List Char}, dropLit l s = some r ↔ s = l ++ r := by
  induction l with
  | nil =>
    intro s r
    simp [dropLit]
  | cons c cs ih =>
    intro s r
    cases s with
    | nil => simp [dropLit]
    | cons a as =>
      by_cases h : a = c
      · subst h
        simp [dropLit, ih]
      · simp [dropLit, h]

theorem takeWhile_all_append {p : Char → Bool} {h : List Char} {c : Char}
    {rest : List Char} (hall : ∀ x ∈ h, p x = true) (hc : p c = false) :
    (h ++ c :: rest).takeWhile p = h := by
  induction h with
  | nil => simp [List.takeWhile_cons, hc]
  | cons a h2 ih =>
    have ha : p a = true := hall a (by simp)
    simp only [List.cons_append, List.takeWhile_cons, ha, if_true]
    rw [ih (fun x hx => hall x (by simp [hx]))]

theorem dropWhile_all_append {p : Char → Bool} {h : List Char} {c : Char}
    {rest : List Char} (hall : ∀ x ∈ h, p x = true) (hc : p c = false) :
    (h ++ c :: rest).dropWhile p = c :: rest := by
  induction h with
  | nil => simp [List.dropWhile_cons, hc]
  | cons a h2 ih =>
    have ha : p a = true := hall a (by simp)
    simp only [List.cons_append, List.dropWhile_cons, ha, if_true]
    exact ih (fun x hx => hall x (by simp [hx]))

theorem captureHandle_eq_some (w : Char → Bool) (hw : w '/' = false)
    {t h : List Char} :
    captureHandle w t = some h ↔
      h ≠ [] ∧ h.length ≤ 15 ∧ (∀ x ∈ h, w x = true) ∧
        ∃ rest, t = h ++ '/' :: rest := by
  constructor
  · intro hc
    unfold captureHandle at hc
    split_ifs at hc with h1 h2 h3
    have hh : List.takeWhile w t = h := Option.some.inj hc
    subst hh
    refine ⟨?_, Nat.not_lt.mp h2, ?_, ?_⟩
    · intro hemp
      exact h1 (by rw [hemp]; rfl)
    · intro x hx
      exact List.mem_takeWhile_imp hx
    · cases hD : t.dropWhile w with
      | nil => rw [hD] at h3; simp at h3
      | cons a as =>
        rw [hD] at h3
        simp at h3
        subst h3
        refine ⟨as, ?_⟩
        conv_lhs => rw [← List.takeWhile_append_dropWhile w t]
        rw [hD]
  · rintro ⟨hne, hlen, hall, rest, rfl⟩
    have ht : ((h ++ '/' :: rest).takeWhile w) = h :=
      takeWhile_all_append hall hw
    have hd : ((h ++ '/' :: rest).dropWhile w) = '/' :: rest :=
      dropWhile_all_append hall hw
    unfold captureHandle
    rw [ht, hd]
    rw [if_neg (by simpa using hne), if_neg (Nat.not_lt.mpr hlen),
        if_pos (show (('/' : Char) :: rest).head? = some '/' from rfl)]

theorem matchPat_eq_some (w : Char → Bool) (hw : w '/' = false)
    {t h : List Char} :
    matchPat w t = some h ↔ ShapeHead w t h := by
  constructor
  · intro hm
    unfold matchPat at hm
    cases hD1 : dropLit ("twitter".data) t with
    | none => rw [hD1] at hm; exact Option.noConfusion hm
    | some t1 =>
      rw [hD1] at hm
      simp only [Option.some_bind] at hm
      cases t1 with
      | nil => exact Option.noConfusion hm
      | cons c t2 =>
        change (if c = '\n' then none
            else (dropLit ("com/".data) t2).bind (captureHandle w)) = some h at hm
        by_cases hcn : c = '\n'
        · rw [if_pos hcn] at hm
          exact Option.noConfusion hm
        · rw [if_neg hcn] at hm
          cases hD2 : dropLit ("com/".data) t2 with
          | none => rw [hD2] at hm; exact Option.noConfusion hm
          | some t3 =>
            rw [hD2] at hm
            simp only [Option.some_bind] at hm
            obtain ⟨hne, hlen, hall, rest, ht3⟩ :=
              (captureHandle_eq_some w hw).mp hm
            refine ⟨c, rest, hcn, hne, hlen, hall, ?_⟩
            have e1 : t = "twitter".data ++ (c :: t2) := dropLit_eq_some.mp hD1
            have e2 : t2 = "com/".data ++ t3 := dropLit_eq_some.mp hD2
            rw [e1, e2, ht3]
  · rintro ⟨c, rest, hcn, hne, hlen, hall, rfl⟩
    have e1 : dropLit ("twitter".data)
        ("twitter".data ++ (c :: ("com/".data ++ (h ++ ('/' :: rest))))) =
        some (c :: ("com/".data ++ (h ++ ('/' :: rest)))) :=
      dropLit_eq_some.mpr rfl
    have e2 : dropLit ("com/".data) ("com/".data ++ (h ++ ('/' :: rest))) =
        some (h ++ ('/' :: rest)) :=
      dropLit_eq_some.mpr rfl
    unfold matchPat
    rw [e1]
    simp only [Option.some_bind]
    rw [if_neg hcn, e2]
    simp only [Option.some_bind]
    exact (captureHandle_eq_some w hw).mpr ⟨hne, hlen, hall, rest, rfl⟩

theorem matchPat_nil (w : Char → Bool) : matchPat w ([] : List Char) = none := by
  have hD : dropLit ("twitter".data) ([] : List Char) = none := by decide
  simp [matchPat, hD]

theorem searchPat_eq_none (w : Char → Bool) {s : List Char}
    (hnone : ∀ i, matchPat w (s.drop i) = none) : searchPat w s = none := by
  induction s with
  | nil => rfl
  | cons c rest ih =>
    have h0 : matchPat w (c :: rest) = none := by simpa using hnone 0
    have htail : searchPat w rest = none :=
      ih (fun i => by simpa [List.drop_succ_cons] using hnone (i + 1))
    simp [searchPat, h0, htail]

theorem searchPat_eq_some (w : Char → Bool) {s : List Char} :
    ∀ {i : Nat} {h : List Char}, matchPat w (s.drop i) = some h →
      (∀ j, j < i → matchPat w (s.drop j) = none) → searchPat w s = some h := by
  induction s with
  | nil =>
    intro i h hm _
    rw [List.drop_nil] at hm
    rw [matchPat_nil] at hm
    exact Option.noConfusion hm
  | cons c rest ih =>
    intro i h hm hmin
    cases i with
    | zero =>
      rw [List.drop_zero] at hm
      simp [searchPat, hm]
    | succ i2 =>
      have h0 : matchPat w (c :: rest) = none := by
        simpa using hmin 0 (Nat.succ_pos i2)
      rw [List.drop_succ_cons] at hm
      have htail : searchPat w rest = some h :=
        ih hm (fun j hj => by
          simpa [List.drop_succ_cons] using hmin (j + 1) (Nat.succ_lt_succ hj))
      simp [searchPat, h0, htail]

theorem searchPat_none_imp (w : Char → Bool) {s : List Char}
    (hnone : searchPat w s = none) : ∀ i, matchPat w (s.drop i) = none := by
  induction s with
  | nil =>
    intro i
    rw [List.drop_nil]
    exact matchPat_nil w
  | cons c rest ih =>
    cases hM : matchPat w (c :: rest) with
    | some h =>
      rw [show searchPat w (c :: rest) = some h by simp [searchPat, hM]] at hnone
      exact Option.noConfusion hnone
    | none =>
      have htail : searchPat w rest = none := by
        rw [show searchPat w (c :: rest) = searchPat w rest by
          simp [searchPat, hM]] at hnone
        exact hnone
      intro i
      cases i with
      | zero => rw [List.drop_zero]; exact hM
      | succ i2 => rw [List.drop_succ_cons]; exact ih htail i2

/-- Claim C5 as frozen fails on the code: \w in the source pattern is
Python's Unicode word class, not the ascii alphabet [A-Za-z0-9_] the
claim names. The input "twitter.com/café/x/" contains no occurrence of
the claimed ascii shape, so the claim demands the absence marker, yet
the extractor matches the accented handle and returns café. -/
theorem get_username_unicode_handle :
    (∀ i h, ¬ ShapeAt asciiWordChar ("twitter.com/café/x/".data) i h) ∧
    get_username "twitter.com/café/x/" = some (String.mk ("café".data)) := by
  constructor
  · intro i h hsh
    have hs : searchPat asciiWordChar ("twitter.com/café/x/".data) = none := by
      decide
    have hm : matchPat asciiWordChar (("twitter.com/café/x/".data).drop i) =
        some h :=
      (matchPat_eq_some asciiWordChar (by decide)).mpr hsh
    rw [searchPat_none_imp asciiWordChar hs i] at hm
    exact Option.noConfusion hm
  · decide

/-- Claim C5 amended: the handle alphabet is Python's word class \w, not
just its ascii fragment. For every word class w that excludes the slash
— as \w does — and every input string, the extractor built on w returns
exactly the handle of the leftmost occurrence of the w-shape (domain
marker, slash, 1-to-15 w-word characters, slash), and returns the
absence marker none when no occurrence exists; the embedding is total,
so no input raises. get_username, the program's extractor, is the
instance at Python's word class. -/
theorem get_username_word_class_spec (w : Char → Bool) (hw : w '/' = false)
    (s : String) :
    (∀ i h, ShapeAt w s.data i h → (∀ j h2, ShapeAt w s.data j h2 → i ≤ j) →
      get_username_with w s = some (String.mk h)) ∧
    ((∀ i h, ¬ ShapeAt w s.data i h) → get_username_with w s = none) := by
  constructor
  · intro i h hsh hmin
    have hm : matchPat w (s.data.drop i) = some h :=
      (matchPat_eq_some w hw).mpr hsh
    have hnone : ∀ j, j < i → matchPat w (s.data.drop j) = none := by
      intro j hj
      cases hMj : matchPat w (s.data.drop j) with
      | none => rfl
      | some h2 =>
        have hle : i ≤ j := hmin j h2 ((matchPat_eq_some w hw).mp hMj)
        exact absurd hj (Nat.not_lt.mpr hle)
    unfold get_username_with
    rw [searchPat_eq_some w hm hnone]
    rfl
  · intro hno
    unfold get_username_with
    have hnone : ∀ j, matchPat w (s.data.drop j) = none := by
      intro j
      cases hMj : matchPat w (s.data.drop j) with
      | none => rfl
      | some h2 => exact absurd ((matchPat_eq_some w hw).mp hMj) (hno j h2)
    rw [searchPat_eq_none w hnone]
    rfl

/-- Witness for the amended C5 at the program's word class: the slash is
not a \w character, the w-shape with the accented handle café sits at
position 0 of "twitter.com/café/x/", and the program's extractor
returns exactly café. -/
theorem get_username_word_class_spec_witness :
    pyWordChar '/' = false ∧
    get_username "twitter.com/café/x/" = some (String.mk ("café".data)) := by
  refine ⟨by decide, ?_⟩
  show get_username_with pyWordChar "twitter.com/café/x/" =
    some (String.mk ("café".data))
  apply (get_username_word_class_spec pyWordChar (by decide)
    "twitter.com/café/x/").1 0 ("café".data)
  · refine ⟨'.', "x/".data, ?_, ?_, ?_, ?_, ?_⟩ <;> decide
  · intro j h2 hsh
    exact Nat.zero_le j

theorem count_le_one_of_nodup {α : Type} [BEq α] [LawfulBEq α] {l : List α}
    (hl : l.Nodup) (x : α) : l.count x ≤ 1 := by
  induction l with
  | nil => simp
  | cons a l ih =>
    obtain ⟨hal, hnd⟩ := List.nodup_cons.mp hl
    rw [List.count_cons]
    by_cases hax : a == x
    · have hxa : a = x := by simpa using hax
      subst hxa
      have hz : l.count a = 0 := List.count_eq_zero.mpr hal
      simp [hz]
    · simp only [hax, if_false]
      simpa using ih hnd

theorem runLookups_invariant (svc : Option String → ℚ) (b : BotometerConnection) :
    ∀ (ns : List (Option String)) (st : OracleState), OracleInv svc b st →
      OracleInv svc b (runLookups svc b st ns).2 ∧
      (runLookups svc b st ns).1 = ns.map (fun n => account_is_human svc b n) := by
  intro ns
  induction ns with
  | nil =>
    intro st hst
    exact ⟨hst, rfl⟩
  | cons n ns ih =>
    intro st hst
    cases hL : st.cache.lookup n with
    | some r =>
      have hr : r = account_is_human svc b n := hst.2.2 n r hL
      have hrun : runLookups svc b st (n :: ns) =
          (r :: (runLookups svc b st ns).1, (runLookups svc b st ns).2) := by
        simp [runLookups, cachedLookup, hL]
      obtain ⟨hinv2, hmap⟩ := ih st hst
      rw [hrun]
      exact ⟨hinv2, by simp [hmap, hr]⟩
    | none =>
      have hnotc : n ∉ st.calls := by
        intro hmem
        have hsome := hst.2.1 n hmem
        rw [hL] at hsome
        simp at hsome
      have hinvS : OracleInv svc b
          (OracleState.mk ((n, account_is_human svc b n) :: st.cache)
            (st.calls ++ [n])) := by
        refine ⟨?_, ?_, ?_⟩
        · simp [List.nodup_append, hst.1, hnotc]
        · intro m hm
          rcases List.mem_append.mp hm with hm1 | hm2
          · cases hbe : (m == n) with
            | true => simp [List.lookup, hbe]
            | false =>
              simp only [List.lookup, hbe]
              exact hst.2.1 m hm1
          · have hmn : m = n := by simpa using hm2
            subst hmn
            simp [List.lookup]
        · intro m r hLook
          by_cases hmn : m = n
          · subst hmn
            simp [List.lookup] at hLook
            exact hLook.symm
          · have hbe : (m == n) = false := beq_eq_false_iff_ne.mpr hmn
            simp only [List.lookup, hbe] at hLook
            exact hst.2.2 m r hLook
      have hrun : runLookups svc b st (n :: ns) =
          (account_is_human svc b n ::
            (runLookups svc b
              (OracleState.mk ((n, account_is_human svc b n) :: st.cache)
                (st.calls ++ [n])) ns).1,
           (runLookups svc b
              (OracleState.mk ((n, account_is_human svc b n) :: st.cache)
                (st.calls ++ [n])) ns).2) := by
        simp [runLookups, cachedLookup, hL]
      obtain ⟨hinv2, hmap⟩ := ih _ hinvS
      rw [hrun]
      exact ⟨hinv2, by simp [hmap]⟩

/-- Claim C7: within one run started with an empty cache, the underlying
service is invoked at most once per key, no matter how often the key is
looked up, and every lookup of a key returns the one verdict
account_is_human computes for it — so repeated lookups return the
identical previously obtained result. -/
theorem oracle_memoization (svc : Option String → ℚ) (b : BotometerConnection)
    (names : List (Option String)) :
    (∀ x, List.count x (runLookups svc b (OracleState.mk [] []) names).2.calls ≤ 1) ∧
    (runLookups svc b (OracleState.mk [] []) names).1 =
      names.map (fun n => account_is_human svc b n) := by
  have h0 : OracleInv svc b (OracleState.mk [] []) := by
    refine ⟨List.nodup_nil, ?_, ?_⟩
    · intro n hn
      simp at hn
    · intro n r hr
      simp [List.lookup] at hr
  obtain ⟨hinv, hmap⟩ := runLookups_invariant svc b names (OracleState.mk [] []) h0
  exact ⟨fun x => count_le_one_of_nodup hinv.1 x, hmap⟩

theorem filterRowsE_ok_of_cols (svc : Option String → ℚ) (b : BotometerConnection)
    (col : String) :
    ∀ rows : List Row, (∀ r ∈ rows, (List.lookup col r).isSome = true) →
      ∃ l, filterRowsE svc b col rows = Except.ok l := by
  intro rows
  induction rows with
  | nil =>
    intro _
    exact ⟨[], rfl⟩
  | cons r rs ih =>
    intro hall
    have hr := hall r (by simp)
    cases hv : List.lookup col r with
    | none =>
      rw [hv] at hr
      simp at hr
    | some v =>
      obtain ⟨l, hl⟩ := ih (fun x hx => hall x (by simp [hx]))
      refine ⟨if account_is_human svc b (get_username v) then r :: l else l, ?_⟩
      simp [filterRowsE, classifyRow, filter_by_bottines, Except.map, hv, hl]

theorem filterRowsE_error_of (svc : Option String → ℚ) (b : BotometerConnection)
    (col : String) :
    ∀ (rows : List Row) (e : Unit), filterRowsE svc b col rows = Except.error e →
      ∃ r ∈ rows, List.lookup col r = none := by
  intro rows
  induction rows with
  | nil =>
    intro e he
    exact Except.noConfusion he
  | cons r rs ih =>
    intro e he
    cases hv : List.lookup col r with
    | none => exact ⟨r, by simp, hv⟩
    | some v =>
      simp only [filterRowsE, classifyRow, filter_by_bottines, Except.map, hv] at he
      cases hrec : filterRowsE svc b col rs with
      | error e2 =>
        obtain ⟨r2, hr2, hcol⟩ := ih e2 hrec
        exact ⟨r2, by simp [hr2], hcol⟩
      | ok rest =>
        rw [hrec] at he
        simp at he

/-- Claim C8: the top-level run reports failure with the false flag only
when the input dataset could not be loaded, and writes nothing then; it
raises (the KeyError outcome) only when some row lacks the configured
column — which, for rows read against the header, means the configured
column is absent; and whenever the dataset loaded and every row carries
the column, it reports success, even with zero retained rows — per-row
verdicts never fail the whole operation. -/
theorem filter_csv_spec (svc : Option String → ℚ) (col : String)
    (input : Option CsvData) (write_out : Bool) :
    (∀ res, filter_csv_run svc col input write_out = Except.ok (false, res) →
      input = none ∧ res = none) ∧
    (∀ e, filter_csv_run svc col input write_out = Except.error e →
      ∃ d, input = some d ∧ ∃ r ∈ d.data, List.lookup col r = none) ∧
    (∀ d, input = some d → (∀ r ∈ d.data, (List.lookup col r).isSome = true) →
      ∃ rows, filter_csv_run svc col input write_out =
        Except.ok (true, if write_out then some (CsvData.mk d.fieldnames rows) else none)) := by
  refine ⟨?_, ?_, ?_⟩
  · intro res hres
    cases input with
    | none =>
      refine ⟨rfl, ?_⟩
      simp only [filter_csv_run] at hres
      cases hres
      rfl
    | some d =>
      simp only [filter_csv_run] at hres
      cases hF : filterRowsE svc BotometerConnection.init col d.data with
      | error e =>
        rw [hF] at hres
        exact Except.noConfusion hres
      | ok rows =>
        rw [hF] at hres
        simp at hres
  · intro e he
    cases input with
    | none =>
      simp only [filter_csv_run] at he
      exact Except.noConfusion he
    | some d =>
      simp only [filter_csv_run] at he
      cases hF : filterRowsE svc BotometerConnection.init col d.data with
      | error e2 =>
        rw [hF] at he
        obtain ⟨r, hr, hcol⟩ :=
          filterRowsE_error_of svc BotometerConnection.init col d.data e2 hF
        exact ⟨d, rfl, r, hr, hcol⟩
      | ok rows =>
        rw [hF] at he
        exact Except.noConfusion he
  · rintro d rfl hall
    obtain ⟨rows, hrows⟩ :=
      filterRowsE_ok_of_cols svc BotometerConnection.init col d.data hall
    refine ⟨rows, ?_⟩
    simp [filter_csv_run, hrows]

/-- Witness for C8: a loaded dataset whose single configured column is
present but which has zero rows — the run succeeds and writes the
header with no rows. -/
theorem filter_csv_spec_witness :
    (∀ r ∈ ([] : List Row), (List.lookup "u" r).isSome = true) ∧
    ∃ rows, filter_csv_run (fun _ => (0 : ℚ)) "u" (some (CsvData.mk ["u"] [])) true =
      Except.ok (true, if true then some (CsvData.mk ["u"] rows) else none) :=
  ⟨fun r hr => absurd hr (List.not_mem_nil r),
   (filter_csv_spec (fun _ => (0 : ℚ)) "u" (some (CsvData.mk ["u"] [])) true).2.2
     (CsvData.mk ["u"] []) rfl (fun r hr => absurd hr (List.not_mem_nil r))⟩

/-- Claim C4 fails on the code: on a row whose configured column has no
extractable identifier, filter_by_bottines logs its warning but then
still submits the absent key None to the oracle client — the call log
is [none] — and the verdict follows the service's score for None, here
retaining the row rather than dropping it as automated-by-default. -/
theorem filter_by_bottines_absent_id :
    get_username "not a url" = none ∧
    filter_by_bottines (fun _ => (0 : ℚ)) BotometerConnection.init "profile_url"
        [("name", "bob"), ("profile_url", "not a url")] =
      Except.ok (true, [none]) := by
  have hg : get_username "not a url" = none := rfl
  refine ⟨hg, ?_⟩
  have hl : List.lookup "profile_url"
      ([("name", "bob"), ("profile_url", "not a url")] : Row) = some "not a url" := by
    simp [List.lookup]
  simp only [filter_by_bottines, hl, hg]
  norm_num [account_is_human, BotometerConnection.init]

/-- Claim C2 fails on the code: write_csv_data never calls writeheader,
so the serialized output of the §8 dataset is the single retained row
and nothing else, differing from the spec's header-then-rows format. -/
theorem write_csv_data_omits_header :
    write_csv_data (CsvData.mk ["name", "profile_url"]
        [[("name", "alice"), ("profile_url", "https://twitter.com/alice123/status/1")]]) =
      [["alice", "https://twitter.com/alice123/status/1"]] ∧
    write_csv_data_per_spec (CsvData.mk ["name", "profile_url"]
        [[("name", "alice"), ("profile_url", "https://twitter.com/alice123/status/1")]]) =
      [["name", "profile_url"], ["alice", "https://twitter.com/alice123/status/1"]] ∧
    write_csv_data (CsvData.mk ["name", "profile_url"]
        [[("name", "alice"), ("profile_url", "https://twitter.com/alice123/status/1")]]) ≠
      write_csv_data_per_spec (CsvData.mk ["name", "profile_url"]
        [[("name", "alice"), ("profile_url", "https://twitter.com/alice123/status/1")]]) := by
  refine ⟨rfl, rfl, ?_⟩
  decide

/-- Claim C10: right after construction, before any set_bot_cap call,
the stored threshold is 0.8, and a run that never sets it classifies
every row against 0.8: the per-row verdict compares the extracted key's
score with 0.8, and the whole run retains a single-row dataset exactly
when that score is at most 0.8. -/
theorem default_threshold_spec (svc : Option String → ℚ) (col : String)
    (fns : List String) (row : Row) (v : String)
    (hv : List.lookup col row = some v) :
    BotometerConnection.init.weighting = 0.8 ∧
    classifyRow svc BotometerConnection.init col row =
      Except.ok (decide (svc (get_username v) ≤ 0.8)) ∧
    filter_csv_run svc col (some (CsvData.mk fns [row])) true =
      Except.ok (true, some (CsvData.mk fns
        (if svc (get_username v) ≤ 0.8 then [row] else []))) := by
  refine ⟨rfl, ?_, ?_⟩
  · simp [classifyRow, filter_by_bottines, account_is_human, Except.map, hv,
      BotometerConnection.init]
  · by_cases hp : svc (get_username v) ≤ (0.8 : ℚ)
    · simp [filter_csv_run, filterRowsE, classifyRow, filter_by_bottines,
        account_is_human, Except.map, BotometerConnection.init, hv, hp]
    · simp [filter_csv_run, filterRowsE, classifyRow, filter_by_bottines,
        account_is_human, Except.map, BotometerConnection.init, hv, hp]

/-- Witness for C10 at a concrete row whose column holds no url and a
service scoring every key 1: the verdict is decide (1 <= 0.8), and the
single-row dataset filters to zero rows under the default threshold. -/
theorem default_threshold_spec_witness :
    List.lookup "u" ([("u", "x")] : Row) = some "x" ∧
    BotometerConnection.init.weighting = 0.8 ∧
    classifyRow (fun _ => (1 : ℚ)) BotometerConnection.init "u" [("u", "x")] =
      Except.ok (decide ((fun _ => (1 : ℚ)) (get_username "x") ≤ 0.8)) ∧
    filter_csv_run (fun _ => (1 : ℚ)) "u" (some (CsvData.mk ["u"] [[("u", "x")]])) true =
      Except.ok (true, some (CsvData.mk ["u"]
        (if (fun _ => (1 : ℚ)) (get_username "x") ≤ 0.8 then [[("u", "x")]] else []))) :=
  ⟨rfl, (default_threshold_spec (fun _ => (1 : ℚ)) "u" ["u"] [("u", "x")] "x" rfl).1,
   (default_threshold_spec (fun _ => (1 : ℚ)) "u" ["u"] [("u", "x")] "x" rfl).2.1,
   (default_threshold_spec (fun _ => (1 : ℚ)) "u" ["u"] [("u", "x")] "x" rfl).2.2⟩
